import Mathlib

/-!
Verification development for the g119612 TSL pipeline core
(github.com/sirosfoundation/g119612).

The repository ships the pipeline core together with an extensive test
suite.  The Go implementation files of the core (reference-tree resolver,
pipeline engine, certificate-pool selector, transform cache, context) are
not part of the source snapshot here; only their tests, the CLI entry
points and a certificate utility are.  The definitions below are therefore
modelled from the design specification, with the observable behaviour
pinned down by the repository's tests.

Modelling conventions:
* document locators (URLs / file paths) are abstracted to natural-number
  identifiers, and fetching is abstracted to a function from locator to
  optional document (a "world"); the resolver never inspects a locator
  beyond using it to fetch,
* Go strings are Lean Strings; the byte-level operations used by the code
  (prefix tests, splitting at a colon, substring containment) are defined
  over the underlying character lists,
* fallible operations return Except/Option, and the mutable Context of the
  pipeline is threaded explicitly.
-/

set_option maxHeartbeats 1000000

namespace G119612

/-- Modelled from the spec: a single trust service entry of a TSL document
(the generated XSD binding TSPServiceType is not part of the snapshot).
It carries a declared service type identifier, a lifecycle status and the
certificate material of its digital identities (kept as an abstract list of
certificate strings). -/
structure TSPService where
  serviceTypeIdentifier : String
  serviceStatus : String
  certs : List String
deriving Repr, DecidableEq

/-- Modelled from the spec: a trust service provider grouping service
entries (binding type TSPType is not part of the snapshot). -/
structure TSProvider where
  services : List TSPService
deriving Repr, DecidableEq

/-- Modelled from the spec: a fetched TSL document (the etsi119612.TSL
wrapper is not part of the snapshot).  It is identified by a source
locator, optionally declares a scheme territory (none models a document
without scheme information), carries providers with service entries, and
lists pointer entries to other TSL documents. -/
structure TSL where
  source : Nat
  schemeTerritory : Option String
  providers : List TSProvider
  pointers : List Nat
deriving Repr, DecidableEq

/-- Modelled from the spec: a node of the reference tree wraps exactly one
TSL document plus an ordered list of child nodes (its resolved pointers). -/
inductive TSLNode : Type where
  | mk (tsl : TSL) (children : List TSLNode)

mutual

/-- Modelled from the spec: depth of a leaf node is 0; depth of a tree is
the maximum depth across children plus one, or 0 if there are no
children (the TSLNode.Depth method of the missing tree implementation). -/
def TSLNode.depth : TSLNode → Nat
  | .mk _ cs => TSLNode.depthList cs

/-- Maximum over the depths-plus-one of a list of children. -/
def TSLNode.depthList : List TSLNode → Nat
  | [] => 0
  | c :: cs => max (TSLNode.depth c + 1) (TSLNode.depthList cs)

end

mutual

/-- Modelled from the spec: flattening a tree node into the list of all
documents of its subtree, root first (the ToSlice method of the missing
tree implementation). -/
def TSLNode.toSlice : TSLNode → List TSL
  | .mk t cs => t :: TSLNode.toSliceList cs

/-- Concatenated flattening of a list of children. -/
def TSLNode.toSliceList : List TSLNode → List TSL
  | [] => []
  | c :: cs => TSLNode.toSlice c ++ TSLNode.toSliceList cs

end

mutual

/-- Modelled from the spec: depth-bounded flattening used by the selector's
reference-depth expansion - the documents reachable within the given number
of pointer hops from this node. -/
def TSLNode.toSliceDepth : TSLNode → Nat → List TSL
  | .mk t _, 0 => [t]
  | .mk t cs, n + 1 => t :: TSLNode.toSliceDepthList cs n

/-- Depth-bounded flattening of a list of children. -/
def TSLNode.toSliceDepthList : List TSLNode → Nat → List TSL
  | [], _ => []
  | c :: cs, n => TSLNode.toSliceDepth c n ++ TSLNode.toSliceDepthList cs n

end

/-- Modelled from the spec: the reference tree wraps a single root node,
possibly none ("no data yet"). -/
structure TSLTree where
  root : Option TSLNode

/-- Depth of a reference tree (0 for an empty tree). -/
def TSLTree.depth (t : TSLTree) : Nat :=
  match t.root with
  | none => 0
  | some n => n.depth

/-- Full flattening of a reference tree. -/
def TSLTree.toSlice (t : TSLTree) : List TSL :=
  match t.root with
  | none => []
  | some n => n.toSlice

/-- Depth-bounded flattening of a reference tree. -/
def TSLTree.toSliceDepth (t : TSLTree) (d : Nat) : List TSL :=
  match t.root with
  | none => []
  | some n => n.toSliceDepth d

/-- Modelled from the spec: the recursive, depth-bounded resolver
(FetchTSLWithReferencesAndOptions / the load step's tree construction,
whose implementation is not in the snapshot).  Given a world (abstracted
fetch), it fetches the document at a locator and recursively resolves its
pointer entries into child nodes, decrementing the remaining-depth counter
at each level; remaining depth 0 yields a single node with no pointers
followed.  A pointer whose fetch fails is skipped (filterMap) without
aborting the parent's resolution; the root's failure is surfaced as none.
Negative (unlimited) depth is outside this model: the claims under
verification quantify over max-depth N with N nonnegative. -/
def resolveNode (world : Nat → Option TSL) : Nat → Nat → Option TSLNode
  | loc, 0 => (world loc).map fun d => TSLNode.mk d []
  | loc, n + 1 => (world loc).map fun d =>
      TSLNode.mk d (d.pointers.filterMap fun p => resolveNode world p n)

/-- Modelled from the spec: the load step's tree construction - fetch
failure of the explicitly requested root document is fatal, otherwise the
resolved tree is produced. -/
def loadTSLTree (world : Nat → Option TSL) (loc : Nat) (maxDepth : Nat) :
    Except String TSLTree :=
  match resolveNode world loc maxDepth with
  | some node => .ok ⟨some node⟩
  | none => .error "failed to load TSL"

/-- A linear pointer-chain document: document i carries arbitrary content
(territory and providers given by the content function) and points to
document i+1 while i < D; document D has no pointers, so the chain rooted
at document 0 has true depth D. -/
def chainTSL (content : Nat → Option String × List TSProvider) (D i : Nat) : TSL :=
  { source := i
    schemeTerritory := (content i).1
    providers := (content i).2
    pointers := if i < D then [i + 1] else [] }

/-- The world of a pointer chain of true depth D: locators 0..D resolve to
the chain documents, everything else fails to fetch. -/
def chainWorld (content : Nat → Option String × List TSProvider) (D : Nat) :
    Nat → Option TSL :=
  fun loc => if loc ≤ D then some (chainTSL content D loc) else none

/-- A world containing one self-referencing document: the document lists
itself as its sole pointer target, and its own locator is the only one that
resolves. -/
def selfWorld (d : TSL) : Nat → Option TSL :=
  fun loc => if loc = d.source then some d else none

theorem chain_map_shift (content : Nat → Option String × List TSProvider)
    (D k M : Nat) :
    ((List.range (M + 1)).map fun j => chainTSL content D (k + j)) =
      chainTSL content D k ::
        ((List.range M).map fun j => chainTSL content D (k + 1 + j)) := by
  rw [List.range_succ_eq_map, List.map_cons, List.map_map]
  simp only [Nat.add_zero]
  congr 1
  apply List.map_congr_left
  intro j _
  simp only [Function.comp_apply]
  congr 1
  omega

theorem chain_resolve_aux (content : Nat → Option String × List TSProvider)
    (D : Nat) :
    ∀ N k, k ≤ D →
      ∃ t, resolveNode (chainWorld content D) k N = some t ∧
        t.depth = min N (D - k) ∧
        t.toSlice =
          (List.range (min N (D - k) + 1)).map fun j => chainTSL content D (k + j) := by
  intro N
  induction N with
  | zero =>
    intro k hk
    refine ⟨TSLNode.mk (chainTSL content D k) [], ?_, ?_, ?_⟩
    · simp [resolveNode, chainWorld, hk]
    · simp [TSLNode.depth, TSLNode.depthList]
    · simp [TSLNode.toSlice, TSLNode.toSliceList, show List.range 1 = [0] by decide]
  | succ N ih =>
    intro k hk
    by_cases hlt : k < D
    · obtain ⟨t', ht', hdepth', hslice'⟩ := ih (k + 1) hlt
      refine ⟨TSLNode.mk (chainTSL content D k) [t'], ?_, ?_, ?_⟩
      · simp [resolveNode, chainWorld, hk, chainTSL, hlt, List.filterMap, ht']
      · simp only [TSLNode.depth, TSLNode.depthList, hdepth']
        omega
      · simp only [TSLNode.toSlice, TSLNode.toSliceList, hslice', List.append_nil]
        have hmin : min (N + 1) (D - k) + 1 = (min N (D - (k + 1)) + 1) + 1 := by omega
        rw [hmin, chain_map_shift content D k (min N (D - (k + 1)) + 1)]
    · have hk' : k = D := by omega
      refine ⟨TSLNode.mk (chainTSL content D k) [], ?_, ?_, ?_⟩
      · simp [resolveNode, chainWorld, hk, chainTSL, hlt, List.filterMap]
      · simp only [TSLNode.depth, TSLNode.depthList]
        omega
      · have : min (N + 1) (D - k) = 0 := by omega
        simp [TSLNode.toSlice, TSLNode.toSliceList, this,
          show List.range 1 = [0] by decide]

/-- C1: for every document whose pointer chain has true depth D, resolving
it with max-depth N (N >= 0, here a natural number) produces a tree whose
depth is min N D and whose flattened slice is exactly the chain of
documents reachable within that bound (so the flattened count is
min N D + 1); in particular max-depth 0 yields a tree of depth 0 with a
flattened count of exactly 1. -/
theorem claim_C1_load_depth_bound (content : Nat → Option String × List TSProvider)
    (D N : Nat) :
    (∃ t : TSLTree, loadTSLTree (chainWorld content D) 0 N = .ok t ∧
       t.depth = min N D ∧
       t.toSlice = ((List.range (min N D + 1)).map fun j => chainTSL content D j) ∧
       t.toSlice.length = min N D + 1) ∧
    (∃ t0 : TSLTree, loadTSLTree (chainWorld content D) 0 0 = .ok t0 ∧
       t0.depth = 0 ∧ t0.toSlice.length = 1) := by
  constructor
  · obtain ⟨t, ht, hdepth, hslice⟩ := chain_resolve_aux content D N 0 (Nat.zero_le D)
    refine ⟨⟨some t⟩, by simp [loadTSLTree, ht], ?_, ?_, ?_⟩
    · simpa [TSLTree.depth] using hdepth
    · simpa [TSLTree.toSlice] using hslice
    · simp only [TSLTree.toSlice]
      rw [hslice]
      simp
  · obtain ⟨t0, ht0, hdepth0, hslice0⟩ := chain_resolve_aux content D 0 0 (Nat.zero_le D)
    refine ⟨⟨some t0⟩, by simp [loadTSLTree, ht0], ?_, ?_⟩
    · simpa [TSLTree.depth] using hdepth0
    · simp only [TSLTree.toSlice]
      rw [hslice0]
      simp

/-- The K-level tree that wraps the same document at every level. -/
def selfTower (d : TSL) : Nat → TSLNode
  | 0 => TSLNode.mk d []
  | k + 1 => TSLNode.mk d [selfTower d k]

theorem selfTower_depth (d : TSL) : ∀ K, (selfTower d K).depth = K := by
  intro K
  induction K with
  | zero => simp [selfTower, TSLNode.depth, TSLNode.depthList]
  | succ K ih => simp [selfTower, TSLNode.depth, TSLNode.depthList, ih]

theorem selfTower_toSlice (d : TSL) :
    ∀ K, (selfTower d K).toSlice = List.replicate (K + 1) d := by
  intro K
  induction K with
  | zero => simp [selfTower, TSLNode.toSlice, TSLNode.toSliceList, List.replicate]
  | succ K ih =>
    simp [selfTower, TSLNode.toSlice, TSLNode.toSliceList, ih, List.replicate]

theorem self_resolve_aux (d : TSL) (h : d.pointers = [d.source]) :
    ∀ K, resolveNode (selfWorld d) d.source K = some (selfTower d K) := by
  intro K
  induction K with
  | zero => simp [resolveNode, selfWorld, selfTower]
  | succ K ih => simp [resolveNode, selfWorld, selfTower, h, List.filterMap, ih]

/-- C2: a document that lists itself as its sole pointer target, resolved
with max-depth K, terminates with a tree of depth exactly K in which every
level wraps the same document (the flattened slice is K+1 copies of it);
the depth bound alone cuts the cycle - the same content is revisited at
each level rather than being detected by locator identity. -/
theorem claim_C2_self_reference_terminates (d : TSL)
    (h : d.pointers = [d.source]) (K : Nat) :
    resolveNode (selfWorld d) d.source K = some (selfTower d K) ∧
      (selfTower d K).depth = K ∧
      (selfTower d K).toSlice = List.replicate (K + 1) d := by
  exact ⟨self_resolve_aux d h K, selfTower_depth d K, selfTower_toSlice d K⟩

/-- Closed witness for C2 at a concrete self-referencing document and
depth 3. -/
theorem claim_C2_self_reference_terminates_witness :
    resolveNode (selfWorld ⟨0, some "SE", [], [0]⟩) 0 3 =
        some (selfTower ⟨0, some "SE", [], [0]⟩ 3) ∧
      (selfTower (⟨0, some "SE", [], [0]⟩ : TSL) 3).depth = 3 ∧
      (selfTower (⟨0, some "SE", [], [0]⟩ : TSL) 3).toSlice =
        List.replicate 4 (⟨0, some "SE", [], [0]⟩ : TSL) :=
  claim_C2_self_reference_terminates ⟨0, some "SE", [], [0]⟩ rfl 3

/-! ### Character-list counterparts of the byte-level string operations -/

/-- Modelled from the spec: substring containment over the characters of a
string, the strings.Contains test used by the status and service-type
filters of the selector (whose implementation is not in the snapshot). -/
def hasSub (needle : List Char) : List Char → Bool
  | [] => needle.isPrefixOf []
  | c :: rest => needle.isPrefixOf (c :: rest) || hasSub needle rest

/-- Substring containment on strings (Go strings.Contains). -/
def substrOf (needle hay : String) : Bool :=
  hasSub needle.data hay.data

theorem mk_data_eta (s : String) : String.mk s.data = s := rfl

theorem isPrefixOf_self (l : List Char) : l.isPrefixOf l = true := by
  induction l with
  | nil => rfl
  | cons c cs ih => simp [List.isPrefixOf, ih]

theorem isPrefixOf_append_self (l m : List Char) : l.isPrefixOf (l ++ m) = true := by
  induction l with
  | nil => simp [List.isPrefixOf]
  | cons c cs ih => simp [List.isPrefixOf, ih]

theorem hasSub_here (needle hay : List Char) (h : needle.isPrefixOf hay = true) :
    hasSub needle hay = true := by
  cases hay with
  | nil => simpa [hasSub] using h
  | cons c rest => simp [hasSub, h]

theorem hasSub_append_self (l m : List Char) : hasSub l (l ++ m) = true :=
  hasSub_here l (l ++ m) (isPrefixOf_append_self l m)

theorem hasSub_append_right (pre n : List Char) : hasSub n (pre ++ n) = true := by
  induction pre with
  | nil => exact hasSub_here n n (isPrefixOf_self n)
  | cons c cs ih => simp [hasSub, ih]

theorem substrOf_self (s : String) : substrOf s s = true :=
  hasSub_here s.data s.data (isPrefixOf_self s.data)

/-- Modelled from the spec: splitting an argument token at its first colon
into a key and an optional value (the strings.SplitN call of the step
argument parsers, not in the snapshot). -/
def splitColon : List Char → List Char × Option (List Char)
  | [] => ([], none)
  | c :: rest =>
    if c = ':' then ([], some rest)
    else
      let r := splitColon rest
      (c :: r.1, r.2)

theorem splitColon_append (k : List Char) (hk : ':' ∉ k) (v : List Char) :
    splitColon (k ++ ':' :: v) = (k, some v) := by
  induction k with
  | nil => simp [splitColon]
  | cons c cs ih =>
    have hc : c ≠ ':' := fun h => hk (by simp [h])
    have hcs : ':' ∉ cs := fun h => hk (List.mem_cons_of_mem c h)
    simp [splitColon, hc, ih hcs]

/-- Modelled from the spec: decimal parsing of a natural number (helper of
the strconv.Atoi model below). -/
def atoiNat (l : List Char) : Option Nat :=
  if l.isEmpty then none
  else
    l.foldl
      (fun acc c =>
        match acc with
        | none => none
        | some n =>
          if '0' ≤ c ∧ c ≤ '9' then some (n * 10 + (c.toNat - '0'.toNat)) else none)
      (some 0)

/-- Modelled from the spec: integer parsing of a decimal step argument (the
strconv.Atoi call of the selector's reference-depth option, not in the
snapshot). -/
def atoi (s : String) : Option Int :=
  match s.data with
  | '-' :: rest => (atoiNat rest).map fun n => -(n : Int)
  | l => (atoiNat l).map fun n => (n : Int)

/-! ### Certificate pool selector -/

/-- Modelled from the spec: reading the reference-depth select option;
invalid, negative or non-numeric values degrade to the given default
(with a logged warning in the implementation), never a hard error. -/
def parseReferenceDepth (s : String) (dflt : Nat) : Nat :=
  match atoi s with
  | some n => if n < 0 then dflt else n.toNat
  | none => dflt

/-- Modelled from the spec: the filter options accumulated while parsing
the arguments of the select step. -/
structure SelectOpts where
  serviceTypes : List String
  statuses : List String
  statusAndLogic : Bool
  referenceDepth : Nat
deriving Repr, DecidableEq

/-- The selector's default reference depth (its concrete value is not
observable through the claims under verification). -/
def defaultReferenceDepth : Nat := 0

def defaultSelectOpts : SelectOpts :=
  ⟨[], [], false, defaultReferenceDepth⟩

/-- Modelled from the spec: dispatch on a recognized select option key;
status values accumulate (multiple occurrences), status-logic:and switches
the status combination to AND, reference-depth degrades gracefully, and
unknown keys are ignored rather than errors. -/
def parseSelectKV (o : SelectOpts) (k v : List Char) : SelectOpts :=
  if k = "status-logic".data then { o with statusAndLogic := v == "and".data }
  else if k = "status".data then { o with statuses := o.statuses ++ [⟨v⟩] }
  else if k = "service-type".data then { o with serviceTypes := o.serviceTypes ++ [⟨v⟩] }
  else if k = "reference-depth".data then
    { o with referenceDepth := parseReferenceDepth ⟨v⟩ o.referenceDepth }
  else o

/-- Modelled from the spec: parsing one select argument of the key:value
form; arguments without a colon are ignored by the option parser. -/
def parseSelectArg (o : SelectOpts) (a : String) : SelectOpts :=
  match splitColon a.data with
  | (k, some v) => parseSelectKV o k v
  | (_, none) => o

/-- Parsing the full select argument list, left to right. -/
def parseSelectOpts (args : List String) : SelectOpts :=
  args.foldl parseSelectArg defaultSelectOpts

/-- The granted/in-effect service status of ETSI TS 119 612. -/
def grantedStatus : String :=
  "http://uri.etsi.org/TrstSvc/TrustedList/Svcstatus/granted"

/-- Modelled from the spec: the per-service filter predicate of the
selector.  Service-type substrings are OR'ed within the key; with no
status filter only the granted status is eligible; with status filters the
declared status must contain any (OR, the default) or all (AND) of the
listed status substrings. -/
def serviceMatches (o : SelectOpts) (svc : TSPService) : Bool :=
  (o.serviceTypes.isEmpty ||
    o.serviceTypes.any fun t => substrOf t svc.serviceTypeIdentifier) &&
  (if o.statuses.isEmpty then svc.serviceStatus == grantedStatus
   else if o.statusAndLogic then o.statuses.all fun s => substrOf s svc.serviceStatus
   else o.statuses.any fun s => substrOf s svc.serviceStatus)

/-- The certificates of the service entries of one document that pass the
filters, in document order. -/
def TSL.certsMatching (tsl : TSL) (o : SelectOpts) : List String :=
  tsl.providers.flatMap fun p =>
    p.services.flatMap fun svc =>
      if serviceMatches o svc then svc.certs else []

/-- Modelled from the spec: the pipeline Context - the stack of resolved
reference trees (authoritative), the legacy flat stack of documents, the
optional built certificate pool, and a string-keyed scratch area for
step-to-step signaling. -/
structure Context where
  tslTrees : List TSLTree
  tsls : List TSL
  certPool : Option (List String)
  data : List (String × String)

/-- Modelled from the spec: NewContext - a context with empty stacks, no
pool and an empty scratch area. -/
def NewContext : Context :=
  ⟨[], [], none, []⟩

/-- All documents loaded in a context: the legacy flat stack together with
the full flattening of every tree on the tree stack. -/
def Context.loadedDocs (ctx : Context) : List TSL :=
  ctx.tsls ++ ctx.tslTrees.flatMap TSLTree.toSlice

/-- The documents visible to selection at a given reference depth. -/
def Context.selectDocs (ctx : Context) (d : Nat) : List TSL :=
  ctx.tsls ++ ctx.tslTrees.flatMap fun t => t.toSliceDepth d

/-- Modelled from the spec: the select step (selectCertPool, not in the
snapshot).  Parse the filter arguments, expand the loaded trees to the
requested reference depth together with the legacy flat stack; absence of
any loaded document is the hard error "no TSLs loaded", otherwise the pool
of certificates of all matching service entries is set on the context
(possibly empty, never nil). -/
def selectCertPool (ctx : Context) (args : List String) : Except String Context :=
  let o := parseSelectOpts args
  let docs := ctx.selectDocs o.referenceDepth
  if docs.isEmpty then .error "no TSLs loaded"
  else .ok { ctx with certPool := some (docs.flatMap fun t => t.certsMatching o) }

/-! ### Territory pre-filter -/

/-- Modelled from the spec: case-insensitive string equality (the
strings.EqualFold call of the territory filter), as character-wise
lowering of both sides. -/
def eqFold (a b : String) : Bool :=
  a.data.map Char.toLower == b.data.map Char.toLower

/-- Modelled from the spec: the territory pre-filter applied to a fetched
document during resolution (matchesTerritory, not in the snapshot).  A
document with no scheme information never matches; otherwise some filter
value must equal the declared scheme territory ignoring letter case. -/
def matchesTerritory (tsl : TSL) (territories : List String) : Bool :=
  match tsl.schemeTerritory with
  | none => false
  | some t => territories.any fun f => eqFold f t

theorem toSliceDepth_ne_nil (n : TSLNode) (d : Nat) : n.toSliceDepth d ≠ [] := by
  cases n with
  | mk t cs => cases d <;> simp [TSLNode.toSliceDepth]

theorem toSlice_ne_nil (n : TSLNode) : n.toSlice ≠ [] := by
  cases n with
  | mk t cs => simp [TSLNode.toSlice]

theorem treeSliceDepth_eq_nil (t : TSLTree) (d : Nat) :
    t.toSliceDepth d = [] ↔ t.root = none := by
  cases t with
  | mk r =>
    cases r with
    | none => simp [TSLTree.toSliceDepth]
    | some n => simp [TSLTree.toSliceDepth, toSliceDepth_ne_nil n d]

theorem treeSlice_eq_nil (t : TSLTree) : t.toSlice = [] ↔ t.root = none := by
  cases t with
  | mk r =>
    cases r with
    | none => simp [TSLTree.toSlice]
    | some n => simp [TSLTree.toSlice, toSlice_ne_nil n]

theorem selectDocs_eq_nil_iff (ctx : Context) (d : Nat) :
    ctx.selectDocs d = [] ↔ ctx.loadedDocs = [] := by
  simp [Context.selectDocs, Context.loadedDocs, List.append_eq_nil,
    List.flatMap_eq_nil_iff, treeSliceDepth_eq_nil, treeSlice_eq_nil]

theorem mem_toSliceDepth_toSlice (d : Nat) :
    (∀ (n : TSLNode) x, x ∈ n.toSliceDepth d → x ∈ n.toSlice) ∧
    (∀ (cs : List TSLNode) x,
      x ∈ TSLNode.toSliceDepthList cs d → x ∈ TSLNode.toSliceList cs) := by
  induction d with
  | zero =>
    have hnode : ∀ (n : TSLNode) x, x ∈ n.toSliceDepth 0 → x ∈ n.toSlice := by
      intro n x hx
      cases n with
      | mk t cs =>
        simp only [TSLNode.toSliceDepth, List.mem_singleton] at hx
        simp [TSLNode.toSlice, hx]
    refine ⟨hnode, ?_⟩
    intro cs
    induction cs with
    | nil => intro x hx; simp [TSLNode.toSliceDepthList] at hx
    | cons c cs ih =>
      intro x hx
      simp only [TSLNode.toSliceDepthList, List.mem_append] at hx
      simp only [TSLNode.toSliceList, List.mem_append]
      rcases hx with h | h
      · exact Or.inl (hnode c x h)
      · exact Or.inr (ih x h)
  | succ d ihd =>
    have hnode : ∀ (n : TSLNode) x, x ∈ n.toSliceDepth (d + 1) → x ∈ n.toSlice := by
      intro n x hx
      cases n with
      | mk t cs =>
        simp only [TSLNode.toSliceDepth, List.mem_cons] at hx
        simp only [TSLNode.toSlice, List.mem_cons]
        rcases hx with h | h
        · exact Or.inl h
        · exact Or.inr (ihd.2 cs x h)
    refine ⟨hnode, ?_⟩
    intro cs
    induction cs with
    | nil => intro x hx; simp [TSLNode.toSliceDepthList] at hx
    | cons c cs ih =>
      intro x hx
      simp only [TSLNode.toSliceDepthList, List.mem_append] at hx
      simp only [TSLNode.toSliceList, List.mem_append]
      rcases hx with h | h
      · exact Or.inl (hnode c x h)
      · exact Or.inr (ih x h)

theorem mem_selectDocs_loaded (ctx : Context) (d : Nat) (x : TSL)
    (hx : x ∈ ctx.selectDocs d) : x ∈ ctx.loadedDocs := by
  simp only [Context.selectDocs, List.mem_append, List.mem_flatMap] at hx
  simp only [Context.loadedDocs, List.mem_append, List.mem_flatMap]
  rcases hx with h | ⟨t, ht, hxt⟩
  · exact Or.inl h
  · refine Or.inr ⟨t, ht, ?_⟩
    cases t with
    | mk r =>
      cases r with
      | none => simp [TSLTree.toSliceDepth] at hxt
      | some n =>
        simp only [TSLTree.toSliceDepth] at hxt
        simpa [TSLTree.toSlice] using (mem_toSliceDepth_toSlice d).1 n x hxt

/-- The pool computed by a successful select. -/
def selectedPool (ctx : Context) (args : List String) : List String :=
  (ctx.selectDocs (parseSelectOpts args).referenceDepth).flatMap fun t =>
    t.certsMatching (parseSelectOpts args)

theorem selectCertPool_ok_of_loaded (ctx : Context) (args : List String)
    (h : ctx.loadedDocs ≠ []) :
    selectCertPool ctx args =
      .ok { ctx with certPool := some (selectedPool ctx args) } := by
  have hne : ¬(ctx.selectDocs (parseSelectOpts args).referenceDepth).isEmpty = true := by
    rw [List.isEmpty_iff, selectDocs_eq_nil_iff]
    exact h
  simp [selectCertPool, selectedPool, hne]

theorem selectCertPool_error_of_empty (ctx : Context) (args : List String)
    (h : ctx.loadedDocs = []) :
    selectCertPool ctx args = .error "no TSLs loaded" := by
  have he : (ctx.selectDocs (parseSelectOpts args).referenceDepth).isEmpty = true := by
    rw [List.isEmpty_iff, selectDocs_eq_nil_iff]
    exact h
  simp [selectCertPool, he]

theorem certsMatching_eq_nil (tsl : TSL) (o : SelectOpts)
    (h : ∀ p ∈ tsl.providers, ∀ svc ∈ p.services, serviceMatches o svc = false) :
    tsl.certsMatching o = [] := by
  simp only [TSL.certsMatching, List.flatMap_eq_nil_iff]
  intro p hp svc hsvc
  simp [h p hp svc hsvc]

/-- C5: select fails - necessarily with "no TSLs loaded" - exactly when
the context holds no loaded documents; when documents are loaded but no
service entry passes the filters, select succeeds and sets a non-nil,
empty certificate pool on the context. -/
theorem claim_C5_no_tsls_vs_empty_pool (ctx : Context) (args : List String) :
    ((∃ e, selectCertPool ctx args = .error e) ↔ ctx.loadedDocs = []) ∧
    (ctx.loadedDocs = [] → selectCertPool ctx args = .error "no TSLs loaded") ∧
    ((∀ tsl ∈ ctx.loadedDocs, ∀ p ∈ tsl.providers, ∀ svc ∈ p.services,
        serviceMatches (parseSelectOpts args) svc = false) →
      ∀ ctx', selectCertPool ctx args = .ok ctx' → ctx'.certPool = some []) := by
  refine ⟨⟨?_, ?_⟩, selectCertPool_error_of_empty ctx args, ?_⟩
  · rintro ⟨e, he⟩
    by_contra hne
    rw [selectCertPool_ok_of_loaded ctx args hne] at he
    exact Except.noConfusion he
  · intro h
    exact ⟨_, selectCertPool_error_of_empty ctx args h⟩
  · intro h ctx' hok
    by_cases hemp : ctx.loadedDocs = []
    · rw [selectCertPool_error_of_empty ctx args hemp] at hok
      exact Except.noConfusion hok
    · rw [selectCertPool_ok_of_loaded ctx args hemp] at hok
      injection hok with h2
      rw [← h2]
      have hnil : selectedPool ctx args = [] := by
        simp only [selectedPool]
        rw [List.flatMap_eq_nil_iff]
        intro t ht
        exact certsMatching_eq_nil t _ (h t (mem_selectDocs_loaded ctx _ t ht))
      simp [hnil]

/-- Closed witness for C5 on the empty context. -/
theorem claim_C5_no_tsls_vs_empty_pool_witness :
    selectCertPool NewContext [] = Except.error "no TSLs loaded" :=
  (claim_C5_no_tsls_vs_empty_pool NewContext []).2.1 rfl

/-- An invalid reference-depth value: non-numeric or negative. -/
def invalidDepthArg (v : String) : Prop :=
  atoi v = none ∨ ∃ n, atoi v = some n ∧ n < 0

theorem parseReferenceDepth_invalid (v : String) (d : Nat)
    (h : invalidDepthArg v) : parseReferenceDepth v d = d := by
  rcases h with h | ⟨n, hn, hneg⟩
  · simp [parseReferenceDepth, h]
  · simp [parseReferenceDepth, hn, hneg]

theorem parseSelectArg_eq_kv (o : SelectOpts) (a : String) (k v : List Char)
    (h : splitColon a.data = (k, some v)) :
    parseSelectArg o a = parseSelectKV o k v := by
  simp [parseSelectArg, h]

theorem refdepth_token_data (v : String) :
    ("reference-depth:" ++ v).data = "reference-depth".data ++ ':' :: v.data := by
  rw [String.data_append]
  rfl

theorem parseSelectArg_refdepth_invalid (o : SelectOpts) (v : String)
    (h : invalidDepthArg v) :
    parseSelectArg o ("reference-depth:" ++ v) = o := by
  obtain ⟨sT, st, lg, rd⟩ := o
  rw [parseSelectArg_eq_kv _ _ "reference-depth".data v.data
    (by rw [refdepth_token_data]; exact splitColon_append _ (by decide) _)]
  simp [parseSelectKV, mk_data_eta, parseReferenceDepth_invalid v rd h]

/-- C7: a select invocation carrying a reference-depth filter with an
invalid (negative or non-numeric) value never fails on that account: it
behaves exactly as if the filter were dropped (default depth), and with
documents loaded the step completes successfully. -/
theorem claim_C7_reference_depth_graceful (ctx : Context)
    (pre post : List String) (v : String) (h : invalidDepthArg v) :
    selectCertPool ctx (pre ++ ("reference-depth:" ++ v) :: post) =
      selectCertPool ctx (pre ++ post) ∧
    (ctx.loadedDocs ≠ [] →
      ∃ ctx', selectCertPool ctx (pre ++ ("reference-depth:" ++ v) :: post) =
        .ok ctx') := by
  have hopts : parseSelectOpts (pre ++ ("reference-depth:" ++ v) :: post) =
      parseSelectOpts (pre ++ post) := by
    simp only [parseSelectOpts, List.foldl_append, List.foldl_cons]
    rw [parseSelectArg_refdepth_invalid _ v h]
  constructor
  · simp only [selectCertPool, hopts]
  · intro hne
    exact ⟨_, selectCertPool_ok_of_loaded ctx _ hne⟩

/-- A one-document sample used by witnesses. -/
def sampleTSL : TSL :=
  ⟨0, some "SE", [], []⟩

/-- A sample context with one loaded document. -/
def sampleContext : Context :=
  ⟨[], [sampleTSL], none, []⟩

/-- Closed witness for C7 at the invalid value "-1". -/
theorem claim_C7_reference_depth_graceful_witness :
    selectCertPool sampleContext ["reference-depth:" ++ "-1"] =
      selectCertPool sampleContext [] ∧
    ∃ ctx', selectCertPool sampleContext ["reference-depth:" ++ "-1"] =
      .ok ctx' := by
  have h := claim_C7_reference_depth_graceful sampleContext [] [] "-1"
    (Or.inr ⟨-1, by decide, by decide⟩)
  exact ⟨h.1, h.2 (by decide)⟩

/-- A document with a single provider carrying a single service of the
given status and one certificate. -/
def mkStatusTSL (st cert : String) : TSL :=
  ⟨0, none, [⟨[⟨"http://example.org/ServiceType", st, [cert]⟩]⟩], []⟩

/-- The three-document scenario of the status-logic claim: single services
with status A, status B, and the compound status "A B". -/
def threeStatusContext (A B c1 c2 c3 : String) : Context :=
  ⟨[], [mkStatusTSL A c1, mkStatusTSL B c2, mkStatusTSL (A ++ " " ++ B) c3],
    none, []⟩

theorem status_token_data (X : String) :
    ("status:" ++ X).data = "status".data ++ ':' :: X.data := by
  rw [String.data_append]
  rfl

theorem parseSelectArg_status (o : SelectOpts) (X : String) :
    parseSelectArg o ("status:" ++ X) = { o with statuses := o.statuses ++ [X] } := by
  obtain ⟨sT, st, lg, rd⟩ := o
  rw [parseSelectArg_eq_kv _ _ "status".data X.data
    (by rw [status_token_data]; exact splitColon_append _ (by decide) _)]
  simp [parseSelectKV, mk_data_eta]

theorem parseSelectArg_statusLogicAnd (o : SelectOpts) :
    parseSelectArg o "status-logic:and" = { o with statusAndLogic := true } := by
  obtain ⟨sT, st, lg, rd⟩ := o
  rw [parseSelectArg_eq_kv _ _ "status-logic".data "and".data (by decide)]
  simp [parseSelectKV]

theorem parse_status_or (A B : String) :
    parseSelectOpts ["status:" ++ A, "status:" ++ B] =
      ⟨[], [A, B], false, defaultReferenceDepth⟩ := by
  simp only [parseSelectOpts, List.foldl_cons, List.foldl_nil, parseSelectArg_status]
  rfl

theorem parse_status_and (A B : String) :
    parseSelectOpts ["status:" ++ A, "status:" ++ B, "status-logic:and"] =
      ⟨[], [A, B], true, defaultReferenceDepth⟩ := by
  simp only [parseSelectOpts, List.foldl_cons, List.foldl_nil, parseSelectArg_status,
    parseSelectArg_statusLogicAnd]
  rfl

/-- C4: on three documents whose single services have status A, B and
"A B" (with neither of A and B a substring of the other), select with
status:A status:B under the default OR logic selects all three services'
certificates, while the same filters with status-logic:and select only the
certificate of the third service, whose status contains both substrings. -/
theorem claim_C4_status_or_and (A B c1 c2 c3 : String)
    (hBA : substrOf B A = false) (hAB : substrOf A B = false) :
    selectCertPool (threeStatusContext A B c1 c2 c3)
        ["status:" ++ A, "status:" ++ B] =
      .ok { threeStatusContext A B c1 c2 c3 with certPool := some [c1, c2, c3] } ∧
    selectCertPool (threeStatusContext A B c1 c2 c3)
        ["status:" ++ A, "status:" ++ B, "status-logic:and"] =
      .ok { threeStatusContext A B c1 c2 c3 with certPool := some [c3] } := by
  have hA_AB : substrOf A (A ++ " " ++ B) = true := by
    show hasSub A.data (A ++ " " ++ B).data = true
    rw [String.data_append, String.data_append, List.append_assoc]
    exact hasSub_append_self _ _
  have hB_AB : substrOf B (A ++ " " ++ B) = true := by
    show hasSub B.data (A ++ " " ++ B).data = true
    rw [String.data_append]
    exact hasSub_append_right _ _
  constructor
  · simp [selectCertPool, parse_status_or, threeStatusContext, Context.selectDocs,
      TSL.certsMatching, serviceMatches, mkStatusTSL, substrOf_self, hAB, hBA,
      hA_AB, hB_AB]
  · simp [selectCertPool, parse_status_and, threeStatusContext, Context.selectDocs,
      TSL.certsMatching, serviceMatches, mkStatusTSL, substrOf_self, hAB, hBA,
      hA_AB, hB_AB]

/-- Closed witness for C4 at A := "status1", B := "status2". -/
theorem claim_C4_status_or_and_witness :
    selectCertPool (threeStatusContext "status1" "status2" "CERT1" "CERT2" "CERT3")
        ["status:" ++ "status1", "status:" ++ "status2"] =
      .ok { threeStatusContext "status1" "status2" "CERT1" "CERT2" "CERT3" with
              certPool := some ["CERT1", "CERT2", "CERT3"] } ∧
    selectCertPool (threeStatusContext "status1" "status2" "CERT1" "CERT2" "CERT3")
        ["status:" ++ "status1", "status:" ++ "status2", "status-logic:and"] =
      .ok { threeStatusContext "status1" "status2" "CERT1" "CERT2" "CERT3" with
              certPool := some ["CERT3"] } :=
  claim_C4_status_or_and "status1" "status2" "CERT1" "CERT2" "CERT3"
    (by decide) (by decide)

/-- C10: the territory pre-filter matches case-insensitively - a document
with a declared scheme territory passes exactly when some filter value
equals the territory ignoring letter case, and a document with no scheme
information never passes. -/
theorem claim_C10_territory_match (tsl : TSL) (fs : List String) :
    (matchesTerritory tsl fs = true ↔
      ∃ t, tsl.schemeTerritory = some t ∧
        ∃ f ∈ fs, f.data.map Char.toLower = t.data.map Char.toLower) ∧
    (tsl.schemeTerritory = none → matchesTerritory tsl fs = false) := by
  cases h : tsl.schemeTerritory with
  | none => simp [matchesTerritory, h]
  | some t =>
    constructor
    · simp [matchesTerritory, h, eqFold, List.any_eq_true]
    · intro hn
      exact Option.noConfusion hn

/-- Closed witness for C10: territory "SE" matches the lowercase filter
"se". -/
theorem claim_C10_territory_match_witness :
    matchesTerritory (⟨0, some "SE", [], []⟩ : TSL) ["se"] = true :=
  (claim_C10_territory_match ⟨0, some "SE", [], []⟩ ["se"]).1.mpr
    ⟨"SE", rfl, "se", by simp, by decide⟩

/-! ### Pipeline engine -/

/-- Modelled from the spec: a step record - a method name plus an ordered
list of string arguments (the Pipe type of the missing pipeline
implementation). -/
structure Pipe where
  methodName : String
  args : List String

/-- Modelled from the spec: a step handler takes the current context and
the step's arguments and returns the (possibly new) context together with
an optional error (the Go handler signature, with the error cause kept as
an abstract string). -/
def Handler : Type :=
  Context → List String → Context × Option String

/-- Modelled from the spec: a pipeline-level error - either a dispatch
failure on an unknown method name, or a step failure wrapping the step's
index, name and arguments around the original cause
(NewPipelineStepError). -/
inductive PipelineError where
  | unknownMethod (name : String)
  | stepError (index : Nat) (name : String) (args : List String) (cause : String)
deriving Repr, DecidableEq

/-- The unwrap chain of a pipeline error (errors.Unwrap): a step error
exposes its original cause; the unknown-method error wraps nothing. -/
def PipelineError.unwrap : PipelineError → Option String
  | .stepError _ _ _ c => some c
  | .unknownMethod _ => none

/-- Modelled from the spec: Pipeline.Process (not in the snapshot) from
step index i on - look the step's method name up in the registry (a
dispatch miss is fatal before any handler runs, and the test suite pins
that it returns a nil context), run the handler, and on a handler error
stop immediately, returning the handler's returned context together with
the cause wrapped with the step's index, name and arguments. -/
def processFrom (reg : List (String × Handler)) :
    Nat → List Pipe → Context → Option Context × Option PipelineError
  | _, [], ctx => (some ctx, none)
  | i, p :: rest, ctx =>
    match reg.lookup p.methodName with
    | none => (none, some (.unknownMethod p.methodName))
    | some f =>
      match f ctx p.args with
      | (c, some e) => (some c, some (.stepError i p.methodName p.args e))
      | (c, none) => processFrom reg (i + 1) rest c

/-- Modelled from the spec: Pipeline.Process - run the steps in order from
index 0 over the initial context. -/
def process (reg : List (String × Handler)) (pipes : List Pipe) (ctx : Context) :
    Option Context × Option PipelineError :=
  processFrom reg 0 pipes ctx

/-- C3 counterexample: dispatching a single step whose method name is not
registered returns a nil context together with a bare unknown-method
error - not the last good context, and not an error wrapping the step's
index, name and arguments. -/
theorem claim_C3_counterexample :
    process [] [⟨"load", ["x"]⟩] NewContext =
      (none, some (.unknownMethod "load")) := by
  simp [process, processFrom]

/-- C3 (amended): when a step's handler returns an error, no later step's
handler runs (the result is the same for every list of remaining steps),
the error wraps the step's index, name and arguments around the original
cause, which the standard unwrap chain recovers, and the handler's
returned (last good) context is returned to the caller; when a step's
method name is not in the registry, no handler runs for it or any later
step and Process returns a nil context together with an unknown-method
error. -/
theorem claim_C3_step_failure (reg : List (String × Handler))
    (i : Nat) (ctx : Context) (p : Pipe) (rest : List Pipe) :
    (reg.lookup p.methodName = none →
      processFrom reg i (p :: rest) ctx =
        (none, some (.unknownMethod p.methodName))) ∧
    (∀ f c e, reg.lookup p.methodName = some f → f ctx p.args = (c, some e) →
      processFrom reg i (p :: rest) ctx =
        (some c, some (.stepError i p.methodName p.args e)) ∧
      (PipelineError.stepError i p.methodName p.args e).unwrap = some e) := by
  constructor
  · intro h
    simp [processFrom, h]
  · intro f c e hf he
    exact ⟨by simp [processFrom, hf, he], rfl⟩

/-- A handler that always fails with cause "boom". -/
def failHandler : Handler := fun ctx _ => (ctx, some "boom")

/-- Closed witness for C3 (amended) at a concrete failing step. -/
theorem claim_C3_step_failure_witness :
    processFrom [("failfunc", failHandler)] 0 [⟨"failfunc", ["foo"]⟩] NewContext =
      (some NewContext, some (.stepError 0 "failfunc" ["foo"] "boom")) ∧
    (PipelineError.stepError 0 "failfunc" ["foo"] "boom").unwrap = some "boom" :=
  (claim_C3_step_failure [("failfunc", failHandler)] 0 NewContext
    ⟨"failfunc", ["foo"]⟩ []).2 failHandler NewContext "boom" rfl rfl

/-! ### Transform cache -/

/-- Modelled from the spec: the process-wide stylesheet cache
(globalXSLTCache, not in the snapshot), a map from tagged key to
stylesheet bytes, kept as an association list. -/
structure XSLTCache where
  entries : List (String × String)

/-- The outcome of a cache lookup: the content or the loader's error, the
cache afterwards, and how many times the underlying loader ran. -/
structure CacheGetResult where
  content : Except String String
  cache : XSLTCache
  loaderCalls : Nat

/-- Modelled from the spec: globalXSLTCache.get - a hit returns the cached
bytes without running the loader; a miss runs the loader once and writes
the bytes back on success (a loader error is returned and nothing is
cached). -/
def XSLTCache.get (c : XSLTCache) (key : String) (loader : Except String String) :
    CacheGetResult :=
  match List.lookup key c.entries with
  | some v => ⟨.ok v, c, 0⟩
  | none =>
    match loader with
    | .ok v => ⟨.ok v, ⟨(key, v) :: c.entries⟩, 1⟩
    | .error e => ⟨.error e, c, 1⟩

/-- Modelled from the spec: globalXSLTCache.clear - drop all entries. -/
def XSLTCache.clear (_ : XSLTCache) : XSLTCache := ⟨[]⟩

/-- Modelled from the spec: the tagged cache key of a filesystem
stylesheet reference. -/
def fileCacheKey (path : String) : String := "file:" ++ path

/-- Modelled from the spec: the tagged cache key of a built-in (embedded)
stylesheet reference. -/
def embeddedCacheKey (name : String) : String := "embedded:" ++ name

/-- C6: starting from a cleared cache, two consecutive gets for the same
tagged key run the underlying loader exactly once (on the first get only)
and both return the same bytes; a clear followed by another get runs the
loader again; and the tagged keys of filesystem and built-in references
never collide, so the two reference kinds are cached independently. -/
theorem claim_C6_cache_loads_once (c : XSLTCache) (key v : String) :
    ((c.clear.get key (.ok v)).loaderCalls = 1 ∧
     (c.clear.get key (.ok v)).content = .ok v ∧
     ((c.clear.get key (.ok v)).cache.get key (.ok v)).loaderCalls = 0 ∧
     ((c.clear.get key (.ok v)).cache.get key (.ok v)).content = .ok v ∧
     ((c.clear.get key (.ok v)).cache.clear.get key (.ok v)).loaderCalls = 1) ∧
    (∀ path name, (fileCacheKey path == embeddedCacheKey name) = false) := by
  constructor
  · simp [XSLTCache.get, XSLTCache.clear, List.lookup]
  · intro path name
    rw [beq_eq_false_iff_ne]
    intro h
    have h2 := congrArg (fun s : String => s.data.head?) h
    have h3 : (some 'f' : Option Char) = some 'e' := h2
    simp at h3

/-- Closed witness for C6 at a concrete key and content. -/
theorem claim_C6_cache_loads_once_witness :
    (((XSLTCache.mk []).clear.get (fileCacheKey "a.xslt") (.ok "sheet")).loaderCalls = 1 ∧
     ((XSLTCache.mk []).clear.get (fileCacheKey "a.xslt") (.ok "sheet")).content = .ok "sheet" ∧
     (((XSLTCache.mk []).clear.get (fileCacheKey "a.xslt")
        (.ok "sheet")).cache.get (fileCacheKey "a.xslt") (.ok "sheet")).loaderCalls = 0 ∧
     (((XSLTCache.mk []).clear.get (fileCacheKey "a.xslt")
        (.ok "sheet")).cache.get (fileCacheKey "a.xslt") (.ok "sheet")).content = .ok "sheet" ∧
     (((XSLTCache.mk []).clear.get (fileCacheKey "a.xslt")
        (.ok "sheet")).cache.clear.get (fileCacheKey "a.xslt") (.ok "sheet")).loaderCalls = 1) ∧
    (∀ path name, (fileCacheKey path == embeddedCacheKey name) = false) :=
  claim_C6_cache_loads_once (XSLTCache.mk []) (fileCacheKey "a.xslt") "sheet"

/-! ### Embedded transform references -/

namespace xslt

/-- Modelled from the spec: the reserved marker of a built-in transform
reference (the xslt package is not in the snapshot). -/
def embeddedMarker : String := "embedded:"

/-- Modelled from the spec: xslt.Path - the embedded path of a named
built-in stylesheet. -/
def Path (name : String) : String := embeddedMarker ++ name

/-- Modelled from the spec: xslt.IsEmbeddedPath - whether a transform
reference denotes a built-in stylesheet (strings.HasPrefix). -/
def IsEmbeddedPath (p : String) : Bool :=
  embeddedMarker.data.isPrefixOf p.data

/-- Modelled from the spec: xslt.ExtractNameFromPath - strip the embedded
marker from an embedded reference (strings.TrimPrefix); any other path is
returned unchanged. -/
def ExtractNameFromPath (p : String) : String :=
  if IsEmbeddedPath p then ⟨p.data.drop embeddedMarker.data.length⟩ else p

end xslt

/-- C9: building an embedded reference from a name and extracting the name
back recovers the name exactly (for any name without the reserved
separator, as claimed); a path that is not an embedded reference is
returned unchanged by the extractor. -/
theorem claim_C9_embedded_roundtrip (name p : String) (hsep : ':' ∉ name.data) :
    xslt.ExtractNameFromPath (xslt.Path name) = name ∧
    (xslt.IsEmbeddedPath p = false → xslt.ExtractNameFromPath p = p) := by
  constructor
  · have hpre : xslt.embeddedMarker.data.isPrefixOf
        ((xslt.embeddedMarker ++ name) : String).data = true := by
      rw [String.data_append]
      exact isPrefixOf_append_self _ _
    simp [xslt.ExtractNameFromPath, xslt.IsEmbeddedPath, xslt.Path, hpre,
      String.data_append, List.drop_left, mk_data_eta]
  · intro hne
    simp [xslt.ExtractNameFromPath, hne]

/-- Closed witness for C9 at a built-in stylesheet name and a plain
filesystem path. -/
theorem claim_C9_embedded_roundtrip_witness :
    xslt.ExtractNameFromPath (xslt.Path "tsl-to-html.xslt") = "tsl-to-html.xslt" ∧
    xslt.ExtractNameFromPath "/path/to/file.xslt" = "/path/to/file.xslt" :=
  ⟨(claim_C9_embedded_roundtrip "tsl-to-html.xslt" "/path/to/file.xslt"
      (by decide)).1,
   (claim_C9_embedded_roundtrip "tsl-to-html.xslt" "/path/to/file.xslt"
      (by decide)).2 (by decide)⟩

/-! ### Context deep copy

For the deep-copy contract of Context.Copy the pointer structure of the Go
context is what matters (which stack object, scratch map and pool a context
refers to), so this part of the model makes it explicit: a store of
allocated objects addressed by index, and contexts as tuples of
references. -/

/-- Modelled from the spec: the heap of stack objects, scratch maps and
certificate pools allocated by contexts (Context.Copy is not in the
snapshot). -/
structure CopyStore where
  treeStacks : List (List TSLTree)
  tslStacks : List (List TSL)
  dataMaps : List (List (String × String))
  pools : List (List String)

/-- Modelled from the spec: a context viewed through its references - the
tree stack, flat document stack and scratch map it owns, and optionally a
built certificate pool. -/
structure ContextRef where
  treesRef : Nat
  tslsRef : Nat
  dataRef : Nat
  poolRef : Option Nat

/-- The tree stack a reference designates (empty for a dangling one). -/
def CopyStore.readTrees (st : CopyStore) (r : Nat) : List TSLTree :=
  (st.treeStacks[r]?).getD []

/-- The flat document stack a reference designates. -/
def CopyStore.readTSLs (st : CopyStore) (r : Nat) : List TSL :=
  (st.tslStacks[r]?).getD []

/-- The scratch map a reference designates. -/
def CopyStore.readData (st : CopyStore) (r : Nat) : List (String × String) :=
  (st.dataMaps[r]?).getD []

/-- The certificate pool a reference designates. -/
def CopyStore.readPool (st : CopyStore) (r : Nat) : List String :=
  (st.pools[r]?).getD []

/-- Modelled from the spec: Context.Copy - allocate fresh stack, map and
(when present) pool objects holding copies of the original's contents and
return a context referring only to the fresh objects. -/
def copyContext (st : CopyStore) (c : ContextRef) : CopyStore × ContextRef :=
  ({ treeStacks := st.treeStacks ++ [st.readTrees c.treesRef]
     tslStacks := st.tslStacks ++ [st.readTSLs c.tslsRef]
     dataMaps := st.dataMaps ++ [st.readData c.dataRef]
     pools :=
       match c.poolRef with
       | some p => st.pools ++ [st.readPool p]
       | none => st.pools },
   { treesRef := st.treeStacks.length
     tslsRef := st.tslStacks.length
     dataRef := st.dataMaps.length
     poolRef := c.poolRef.map fun _ => st.pools.length })

/-- Mutation: push a tree onto the tree stack a context refers to. -/
def CopyStore.pushTree (st : CopyStore) (c : ContextRef) (t : TSLTree) : CopyStore :=
  { st with treeStacks := st.treeStacks.set c.treesRef (t :: st.readTrees c.treesRef) }

/-- Mutation: push a document onto the flat stack a context refers to. -/
def CopyStore.pushTSL (st : CopyStore) (c : ContextRef) (x : TSL) : CopyStore :=
  { st with tslStacks := st.tslStacks.set c.tslsRef (x :: st.readTSLs c.tslsRef) }

/-- Mutation: insert a key/value pair into the scratch map a context
refers to. -/
def CopyStore.insertData (st : CopyStore) (c : ContextRef) (k v : String) : CopyStore :=
  { st with dataMaps := st.dataMaps.set c.dataRef ((k, v) :: st.readData c.dataRef) }

/-- A context reference is valid in a store when all its references point
at allocated objects. -/
def ContextRef.valid (c : ContextRef) (st : CopyStore) : Prop :=
  c.treesRef < st.treeStacks.length ∧
  c.tslsRef < st.tslStacks.length ∧
  c.dataRef < st.dataMaps.length ∧
  ∀ p, c.poolRef = some p → p < st.pools.length

/-- The deep-copy contract of Context.Copy for a context c in store st:
the copy sees the same contents, the copy operation leaves the original's
views intact, mutating either side's tree stack, flat stack or scratch map
leaves the other side's views unchanged, and a pool present in the copy is
a distinct object with equal contents. -/
def deepCopyOk (st : CopyStore) (c : ContextRef) : Prop :=
  (copyContext st c).1.readTrees (copyContext st c).2.treesRef =
      st.readTrees c.treesRef ∧
  (copyContext st c).1.readTSLs (copyContext st c).2.tslsRef =
      st.readTSLs c.tslsRef ∧
  (copyContext st c).1.readData (copyContext st c).2.dataRef =
      st.readData c.dataRef ∧
  (copyContext st c).1.readTrees c.treesRef = st.readTrees c.treesRef ∧
  (copyContext st c).1.readTSLs c.tslsRef = st.readTSLs c.tslsRef ∧
  (copyContext st c).1.readData c.dataRef = st.readData c.dataRef ∧
  (∀ t, ((copyContext st c).1.pushTree (copyContext st c).2 t).readTrees
      c.treesRef = (copyContext st c).1.readTrees c.treesRef) ∧
  (∀ x, ((copyContext st c).1.pushTSL (copyContext st c).2 x).readTSLs
      c.tslsRef = (copyContext st c).1.readTSLs c.tslsRef) ∧
  (∀ k v, ((copyContext st c).1.insertData (copyContext st c).2 k v).readData
      c.dataRef = (copyContext st c).1.readData c.dataRef) ∧
  (∀ t, ((copyContext st c).1.pushTree c t).readTrees
      (copyContext st c).2.treesRef =
      (copyContext st c).1.readTrees (copyContext st c).2.treesRef) ∧
  (∀ x, ((copyContext st c).1.pushTSL c x).readTSLs
      (copyContext st c).2.tslsRef =
      (copyContext st c).1.readTSLs (copyContext st c).2.tslsRef) ∧
  (∀ k v, ((copyContext st c).1.insertData c k v).readData
      (copyContext st c).2.dataRef =
      (copyContext st c).1.readData (copyContext st c).2.dataRef) ∧
  (∀ p, c.poolRef = some p →
    ∃ q, (copyContext st c).2.poolRef = some q ∧ q ≠ p ∧
      (copyContext st c).1.readPool q = st.readPool p)

/-- C8: Context.Copy is a deep copy - after copying a valid context,
mutating the copy's tree stack, flat document stack or scratch map does
not change the original's, and vice versa; the copy sees the same
contents; and a certificate pool present in the copy is a distinct object
(a fresh reference), not an alias of the original's pool. -/
theorem claim_C8_context_copy_isolated (st : CopyStore) (c : ContextRef)
    (hv : c.valid st) : deepCopyOk st c := by
  obtain ⟨h1, h2, h3, h4⟩ := hv
  have hne1 : st.treeStacks.length ≠ c.treesRef := Nat.ne_of_gt h1
  have hne2 : st.tslStacks.length ≠ c.tslsRef := Nat.ne_of_gt h2
  have hne3 : st.dataMaps.length ≠ c.dataRef := Nat.ne_of_gt h3
  refine ⟨?_, ?_, ?_, ?_, ?_, ?_, ?_, ?_, ?_, ?_, ?_, ?_, ?_⟩
  · simp [copyContext, CopyStore.readTrees, List.getElem?_concat_length]
  · simp [copyContext, CopyStore.readTSLs, List.getElem?_concat_length]
  · simp [copyContext, CopyStore.readData, List.getElem?_concat_length]
  · simp [copyContext, CopyStore.readTrees, List.getElem?_append_left h1]
  · simp [copyContext, CopyStore.readTSLs, List.getElem?_append_left h2]
  · simp [copyContext, CopyStore.readData, List.getElem?_append_left h3]
  · intro t
    simp [copyContext, CopyStore.pushTree, CopyStore.readTrees,
      List.getElem?_set_ne hne1, List.getElem?_append_left h1]
  · intro x
    simp [copyContext, CopyStore.pushTSL, CopyStore.readTSLs,
      List.getElem?_set_ne hne2, List.getElem?_append_left h2]
  · intro k v
    simp [copyContext, CopyStore.insertData, CopyStore.readData,
      List.getElem?_set_ne hne3, List.getElem?_append_left h3]
  · intro t
    simp [copyContext, CopyStore.pushTree, CopyStore.readTrees,
      List.getElem?_set_ne (Ne.symm hne1)]
  · intro x
    simp [copyContext, CopyStore.pushTSL, CopyStore.readTSLs,
      List.getElem?_set_ne (Ne.symm hne2)]
  · intro k v
    simp [copyContext, CopyStore.insertData, CopyStore.readData,
      List.getElem?_set_ne (Ne.symm hne3)]
  · intro p hp
    refine ⟨st.pools.length, ?_, ?_, ?_⟩
    · simp [copyContext, hp]
    · exact fun h => absurd (h ▸ h4 p hp) (Nat.lt_irrefl _)
    · simp [copyContext, hp, CopyStore.readPool, List.getElem?_concat_length]

/-- A concrete store for the C8 witness: one tree stack, one flat stack,
one scratch map and one pool. -/
def copyWitnessStore : CopyStore :=
  ⟨[[⟨none⟩]], [[sampleTSL]], [[("key", "value")]], [["CERT"]]⟩

/-- The context referring to the objects of copyWitnessStore. -/
def copyWitnessRef : ContextRef :=
  ⟨0, 0, 0, some 0⟩

/-- Closed witness for C8 at the concrete store and context. -/
theorem claim_C8_context_copy_isolated_witness :
    copyWitnessRef.valid copyWitnessStore ∧ deepCopyOk copyWitnessStore copyWitnessRef := by
  have hv : copyWitnessRef.valid copyWitnessStore := by
    refine ⟨by decide, by decide, by decide, ?_⟩
    intro p hp
    have hp0 : p = 0 := by
      have := Option.some.inj hp.symm
      omega
    simp [hp0, copyWitnessStore]
  exact ⟨hv, claim_C8_context_copy_isolated copyWitnessStore copyWitnessRef hv⟩

end G119612
